import Mathlib

/-!
# Verification of the kjudge scoring worker

A shallow embedding of `server/contests/submission.go` (worker part):
`MissingTests`, `ScoreGroup`, `ComputePenalties`, `scoreOf`,
`UpdateVerdict`, `CompareScores` and the orchestrating `Score`.

Modelling conventions:
* Go `float64` scores are modelled as `ℚ` (the spec demands exact,
  epsilon-free comparisons).
* Go `time.Time` / `time.Duration` are modelled as `Int` nanoseconds;
  Go's `int64` division truncates toward zero, i.e. `Int.tdiv`.
* Go nullable columns (`sql.NullFloat64`, `sql.NullInt64`, nullable
  `[]byte`) are modelled as `Option`.
* The string-typed mode/policy enumerations of the `models` package are
  modelled as inductives with one constructor per known constant plus an
  `unknown` constructor carrying any other database string.
* A Go `panic` aborts the computation: the affected functions return
  `Option`, with `none` for the aborting branches.
* The database is passed explicitly: functions receive the row lists that
  the Go code fetches.
-/

/-- One minute in nanoseconds (Go `time.Minute`). -/
def minuteNs : Int := 60000000000

/-- `models.Test`: only the id is consulted by the scoring worker. -/
structure Test where
  id : Int
deriving DecidableEq

/-- `models.TestResult` for one (submission, test): fractional score. -/
structure TestResult where
  testID : Int
  score : ℚ
deriving DecidableEq

/-- `models.TestGroup` scoring modes; `unknown` covers any other string
stored in the database. -/
inductive TestScoringMode where
  | sum
  | min
  | product
  | unknown (value : String)
deriving DecidableEq

/-- `models.TestGroupWithTests`: the group weight (`Score`), its scoring
mode and its tests. -/
structure TestGroupWithTests where
  score : ℚ
  scoringMode : TestScoringMode
  tests : List Test
deriving DecidableEq

/-- `models.Problem.PenaltyPolicy` values. -/
inductive PenaltyPolicy where
  | none
  | icpc
  | submitTime
  | unknown (value : String)
deriving DecidableEq

/-- `models.Problem.ScoringMode` (submission-selection policy) values. -/
inductive ScoringMode where
  | once
  | last
  | best
  | decay
  | unknown (value : String)
deriving DecidableEq

/-- `models.Submission`, restricted to the fields the worker reads.
`compiledSource` is Go's nullable `[]byte`: only its nil-ness is ever
inspected. -/
structure Submission where
  id : Int
  problemID : Int
  userID : String
  score : Option ℚ
  penalty : Option Int
  verdict : String
  submittedAt : Int
  compiledSource : Option (List Nat)
deriving DecidableEq

/-- `models.ProblemResult`: the durable standing row for (user, problem). -/
structure ProblemResult where
  bestSubmissionID : Option Int
  penalty : Int
  score : ℚ
  solved : Bool
  problemID : Int
  userID : String
deriving DecidableEq

/-- Verdict string constant. -/
def VerdictCompileError : String := "Compile Error"

/-- Verdict string constant. -/
def VerdictScored : String := "Scored"

/-- Verdict string constant. -/
def VerdictAccepted : String := "Accepted"

/-- The Go map `map[int]*models.TestResult`, modelled as a list with lookup
by test id (the map is built with unique keys). -/
def findResult (results : List TestResult) (tid : Int) : Option TestResult :=
  results.find? (fun r => r.testID == tid)

/-- `MissingTests`: all tests of all groups that have no result. -/
def MissingTests (tests : List TestGroupWithTests) (results : List TestResult) : List Test :=
  tests.foldl (fun acc tg => acc ++ tg.tests.filter (fun t => (findResult results t.id).isNone)) []

/-- The Sum-mode loop of `ScoreGroup`: accumulate `result.Score` over the
group's tests; a missing result is a nil dereference, i.e. an abort. -/
def groupSumLoop (results : List TestResult) : List Test → ℚ → Option ℚ
  | [], acc => some acc
  | t :: ts, acc =>
    match findResult results t.id with
    | Option.none => Option.none
    | some r => groupSumLoop results ts (acc + r.score)

/-- The Min-mode loop of `ScoreGroup`: `ratio` starts at 1 and is replaced
by any strictly larger test score (`if ratio < result.Score`). -/
def groupMinLoop (results : List TestResult) : List Test → ℚ → Option ℚ
  | [], ratio => some ratio
  | t :: ts, ratio =>
    match findResult results t.id with
    | Option.none => Option.none
    | some r => groupMinLoop results ts (if ratio < r.score then r.score else ratio)

/-- The Product-mode loop of `ScoreGroup`: multiply the scores. -/
def groupProductLoop (results : List TestResult) : List Test → ℚ → Option ℚ
  | [], ratio => some ratio
  | t :: ts, ratio =>
    match findResult results t.id with
    | Option.none => Option.none
    | some r => groupProductLoop results ts (ratio * r.score)

/-- `ScoreGroup`: contribution and visibility of one test group.
A group with negative weight is `(0, false)` before the mode is examined;
an unknown mode aborts (Go `panic("Unknown Scoring Mode: ...")`). -/
def ScoreGroup (tg : TestGroupWithTests) (results : List TestResult) : Option (ℚ × Bool) :=
  if tg.score < 0 then some (0, false)
  else
    match tg.scoringMode with
    | .sum => (groupSumLoop results tg.tests 0).map (fun s => (tg.score * (s / (tg.tests.length : ℚ)), true))
    | .min => (groupMinLoop results tg.tests 1).map (fun r => (tg.score * r, true))
    | .product => (groupProductLoop results tg.tests 1).map (fun r => (tg.score * r, true))
    | .unknown _ => Option.none

/-- `scoreOf`: returns (score, penalty, counts). A nil submission, missing
compiled source, or unset score or penalty does not count. -/
def scoreOf : Option Submission → ℚ × Int × Bool
  | Option.none => (0, 0, false)
  | some sub =>
    match sub.compiledSource, sub.score, sub.penalty with
    | some _, some sc, some pen => (sc, pen, true)
    | _, _, _ => (0, 0, false)

/-- Whether a submission counts toward standings (`scoreOf`'s flag). -/
def counting (sub : Submission) : Bool := (scoreOf (some sub)).2.2

/-- The raw stored score field (Go reads `.Score.Float64` directly). -/
def storedScore (sub : Submission) : ℚ := sub.score.getD 0

/-- The ICPC ordinal loop of `ComputePenalties`: Go's
`for id, s := range subs` index is 0-based; the first list entry whose id
equals the scored submission's id yields `20 * id`, otherwise 0. -/
def icpcLoop (subID : Int) : List Submission → Nat → Int
  | [], _ => 0
  | s :: rest, idx => if subID = s.id then 20 * (idx : Int) else icpcLoop subID rest (idx + 1)

/-- The SubmitTime component: Go computes
`int((sub.SubmittedAt.Sub(start) + time.Minute - 1) / time.Minute)` on
`int64` nanoseconds, truncating toward zero (`Int.tdiv`). -/
def submitTimeValue (startTime submittedAt : Int) : Int :=
  Int.tdiv (submittedAt - startTime + minuteNs - 1) minuteNs

/-- `ComputePenalties`: the penalty value stored on the submission.
`userSubs` is the list Go fetches with `GetUserProblemSubmissions` in the
ICPC branch, which falls through to the SubmitTime branch. An unknown
policy aborts (Go `panic`). -/
def ComputePenalties (policy : PenaltyPolicy) (startTime : Int) (sub : Submission)
    (userSubs : List Submission) : Option Int :=
  match policy with
  | .none => some 0
  | .icpc => some (icpcLoop sub.id userSubs 0 + submitTimeValue startTime sub.submittedAt)
  | .submitTime => some (submitTimeValue startTime sub.submittedAt)
  | .unknown _ => Option.none

/-- The loop of `UpdateVerdict` computing `maxPossibleScore`: the sum of
group weights over groups with strictly positive weight. -/
def maxPossibleScoreLoop (tests : List TestGroupWithTests) (acc : ℚ) : ℚ :=
  tests.foldl (fun acc tg => if tg.score > 0 then acc + tg.score else acc) acc

/-- `UpdateVerdict`: the verdict string written on the submission. -/
def UpdateVerdict (tests : List TestGroupWithTests) (sub : Submission) : String :=
  if (scoreOf (some sub)).2.2 = false then VerdictCompileError
  else if (scoreOf (some sub)).1 = maxPossibleScoreLoop tests 0 then VerdictAccepted
  else VerdictScored

/-- The state threaded through `CompareScores`' loop. -/
structure SelState where
  maxScore : ℚ
  which : Option Submission
  counted : Nat
deriving DecidableEq

/-- `which.Score.Float64` as read in the Best-style comparison (`which` is
non-nil there thanks to Go's short-circuit `||`). -/
def whichScore : Option Submission → ℚ
  | Option.none => 0
  | some w => w.score.getD 0

/-- The Decay-mode recomputed score:
`math.Min(0.3, (1 - 0.7*(submittedAt-start)/contestTime) * (1 - 0.1*counted))`. -/
def decayScore (startTime endTime : Int) (counted : Nat) (sub : Submission) : ℚ :=
  min (3/10)
    ((1 - (7/10) * (((sub.submittedAt - startTime : Int) : ℚ) / ((endTime - startTime : Int) : ℚ))) *
      (1 - (1/10) * (counted : ℚ)))

/-- One iteration of `CompareScores`' loop over a submission: skip
non-counting submissions, otherwise dispatch on the selection policy;
`counted` is incremented for every counting submission. An unknown policy
aborts (Go `panic`). -/
def selStep (mode : ScoringMode) (startTime endTime : Int) (st : SelState)
    (sub : Submission) : Option SelState :=
  let score := (scoreOf (some sub)).1
  if (scoreOf (some sub)).2.2 = false then some st
  else
    match mode with
    | .once =>
      some (if st.which.isNone = true then
              { maxScore := score, which := some sub, counted := st.counted + 1 }
            else { st with counted := st.counted + 1 })
    | .last =>
      some { maxScore := score, which := some sub, counted := st.counted + 1 }
    | .best =>
      some (if st.which.isNone = true ∨ whichScore st.which ≤ score then
              { maxScore := score, which := some sub, counted := st.counted + 1 }
            else { st with counted := st.counted + 1 })
    | .decay =>
      let score := decayScore startTime endTime st.counted sub
      some (if st.which.isNone = true ∨ whichScore st.which ≤ score then
              { maxScore := score, which := some sub, counted := st.counted + 1 }
            else { st with counted := st.counted + 1 })
    | .unknown _ => Option.none

/-- The explicit empty standing `CompareScores` returns when no submission
counts: no best submission, penalty 0, score 0, unsolved. -/
def emptyProblemResult (pid : Int) (uid : String) : ProblemResult :=
  { bestSubmissionID := Option.none, penalty := 0, score := 0, solved := false,
    problemID := pid, userID := uid }

/-- `CompareScores`: fold the selection loop over the user's submissions,
then build the `ProblemResult` from the selected submission (or the
explicit empty standing when none counts). -/
def CompareScores (mode : ScoringMode) (startTime endTime : Int) (pid : Int)
    (uid : String) (subs : List Submission) : Option ProblemResult := do
  let st ← subs.foldlM (selStep mode startTime endTime) ⟨0, Option.none, 0⟩
  match st.which with
  | Option.none => pure (emptyProblemResult pid uid)
  | some w =>
    let pc := scoreOf (some w)
    if pc.2.2 = true then
      pure { bestSubmissionID := some w.id, penalty := pc.2.1, score := st.maxScore,
             solved := w.verdict == VerdictAccepted, problemID := pid, userID := uid }
    else pure (emptyProblemResult pid uid)

/-- A job row inserted by the worker (`models.NewJobRun` / `models.NewJobScore`). -/
inductive Job where
  | runTest (submissionID : Int) (testID : Int)
  | scoreSub (submissionID : Int)
deriving DecidableEq

/-- Outcome of one `Score` invocation: either the job batch enqueued for an
incomplete submission (the submission untouched), or the scored submission
together with the recomputed standing. -/
inductive ScoreOutcome where
  | enqueued (sub : Submission) (jobs : List Job)
  | scored (sub : Submission) (pr : ProblemResult)
deriving DecidableEq

/-- The group-summation loop of `Score`: add every `counts = true`
contribution of `ScoreGroup` into the submission's score. -/
def sumCountingGroups (tests : List TestGroupWithTests) (results : List TestResult) : Option ℚ :=
  tests.foldlM (fun acc tg => (ScoreGroup tg results).map (fun p => if p.2 then acc + p.1 else acc)) 0

/-- `Score`: the per-submission scoring workflow. `userSubs` is the list
fetched inside `ComputePenalties`; `userSubsAfterWrite` the list fetched
after the submission row is written, handed to `CompareScores`. If any
test result is missing, one run-test job per missing test plus one
score-submission job are batch-inserted and the submission is untouched. -/
def Score (policy : PenaltyPolicy) (mode : ScoringMode) (startTime endTime : Int)
    (pid : Int) (tests : List TestGroupWithTests) (results : List TestResult)
    (sub : Submission) (userSubs userSubsAfterWrite : List Submission) : Option ScoreOutcome :=
  let missing := MissingTests tests results
  if missing.length > 0 then
    some (.enqueued sub ((missing.map (fun m => Job.runTest sub.id m.id)) ++ [Job.scoreSub sub.id]))
  else do
    let total ← sumCountingGroups tests results
    let sub1 : Submission := { sub with score := some total }
    let pen ← ComputePenalties policy startTime sub1 userSubs
    let sub2 : Submission := { sub1 with penalty := some pen }
    let sub3 : Submission := { sub2 with verdict := UpdateVerdict tests sub2 }
    let pr ← CompareScores mode startTime endTime pid sub3.userID userSubsAfterWrite
    pure (.scored sub3 pr)

/-- Modelled from the spec: `models.ProblemResult.Write` is not under the
sources given; per the spec, persisting a result with no best-submission
reference must clear the standing row for its (user, problem) pair rather
than store a zero row, and otherwise upserts the row. -/
def writeProblemResult (standings : List ProblemResult) (pr : ProblemResult) : List ProblemResult :=
  let others := standings.filter (fun r => !(r.userID == pr.userID && r.problemID == pr.problemID))
  if pr.bestSubmissionID.isSome then others ++ [pr] else others

/-- The scores of a group's tests, in test order, when every test has a
result (`none` when any result is missing). -/
def lookupScores (results : List TestResult) : List Test → Option (List ℚ)
  | [] => some []
  | t :: ts =>
    match findResult results t.id, lookupScores results ts with
    | some r, some l => some (r.score :: l)
    | _, _ => Option.none

/-- Loop invariant of `CompareScores` under the Best policy: after
processing a prefix whose counting submissions are `q`, `which` is the
last submission of `q` attaining the maximal stored score, and `maxScore`
is that score. -/
def BestInv (st : SelState) (q : List Submission) : Prop :=
  (st.which = Option.none → q = [] ∧ st.maxScore = 0) ∧
  (∀ w, st.which = some w → counting w = true ∧ st.maxScore = storedScore w ∧
    ∃ l₁ l₂, q = l₁ ++ w :: l₂ ∧
      (∀ s ∈ l₁, storedScore s ≤ storedScore w) ∧
      (∀ s ∈ l₂, storedScore s < storedScore w))

/-! ## Helper lemmas -/

theorem scoreOf_counting (sub : Submission) (h : counting sub = true) :
    scoreOf (some sub) = (storedScore sub, sub.penalty.getD 0, true) := by
  unfold counting scoreOf at *
  rcases h1 : sub.compiledSource with _ | c <;>
    rcases h2 : sub.score with _ | sc <;>
      rcases h3 : sub.penalty with _ | pen <;>
        simp [h1, h2, h3, storedScore] at h ⊢

theorem groupSumLoop_eq (results : List TestResult) :
    ∀ (ts : List Test) (acc : ℚ),
      groupSumLoop results ts acc = (lookupScores results ts).map (fun l => acc + l.sum) := by
  intro ts
  induction ts with
  | nil => intro acc; simp [groupSumLoop, lookupScores]
  | cons t ts ih =>
    intro acc
    rcases h : findResult results t.id with _ | r
    · simp [groupSumLoop, lookupScores, h]
    · rcases h2 : lookupScores results ts with _ | l
      · simp [groupSumLoop, lookupScores, h, h2, ih]
      · simp [groupSumLoop, lookupScores, h, h2, ih]
        ring

theorem groupMinLoop_eq (results : List TestResult) :
    ∀ (ts : List Test) (r : ℚ),
      groupMinLoop results ts r = (lookupScores results ts).map (fun l => l.foldl max r) := by
  intro ts
  induction ts with
  | nil => intro r; simp [groupMinLoop, lookupScores]
  | cons t ts ih =>
    intro r
    rcases h : findResult results t.id with _ | tr
    · simp [groupMinLoop, lookupScores, h]
    · have hmax : (if r < tr.score then tr.score else r) = max r tr.score := by
        rcases lt_or_ge r tr.score with hlt | hge
        · simp [hlt, max_eq_right (le_of_lt hlt)]
        · simp [not_lt_of_ge hge, max_eq_left hge]
      rcases h2 : lookupScores results ts with _ | l
      · simp [groupMinLoop, lookupScores, h, h2, ih]
      · simp [groupMinLoop, lookupScores, h, h2, ih, hmax]

theorem groupProductLoop_eq (results : List TestResult) :
    ∀ (ts : List Test) (r : ℚ),
      groupProductLoop results ts r = (lookupScores results ts).map (fun l => r * l.prod) := by
  intro ts
  induction ts with
  | nil => intro r; simp [groupProductLoop, lookupScores]
  | cons t ts ih =>
    intro r
    rcases h : findResult results t.id with _ | tr
    · simp [groupProductLoop, lookupScores, h]
    · rcases h2 : lookupScores results ts with _ | l
      · simp [groupProductLoop, lookupScores, h, h2, ih]
      · simp [groupProductLoop, lookupScores, h, h2, ih]
        ring

theorem maxPossibleScoreLoop_eq :
    ∀ (tests : List TestGroupWithTests) (acc : ℚ),
      maxPossibleScoreLoop tests acc =
        acc + ((tests.filter (fun tg => decide (0 < tg.score))).map (fun tg => tg.score)).sum := by
  intro tests
  induction tests with
  | nil => intro acc; simp [maxPossibleScoreLoop]
  | cons tg tests ih =>
    intro acc
    by_cases h : 0 < tg.score
    · simp [maxPossibleScoreLoop, List.filter_cons, h] at ih ⊢
      rw [ih]
      ring
    · simp [maxPossibleScoreLoop, List.filter_cons, h] at ih ⊢
      rw [ih]

/-! ## Claim theorems -/

/-- C6: For every test group with non-negative weight in Min scoring mode
(with a result present for every test in the group), `ScoreGroup` returns
contribution = weight × ratio where ratio is the running maximum of a
value initialized to 1 over the group's per-test scores, and counts =
true; a group with weight < 0 instead returns (0, false). -/
theorem scoreGroup_min_spec (tg : TestGroupWithTests) (results : List TestResult) (l : List ℚ)
    (hmode : tg.scoringMode = .min) :
    (0 ≤ tg.score → lookupScores results tg.tests = some l →
      ScoreGroup tg results = some (tg.score * (l.foldl max 1), true)) ∧
    (tg.score < 0 → ScoreGroup tg results = some (0, false)) := by
  constructor
  · intro hw hl
    simp [ScoreGroup, hmode, not_lt_of_ge hw, groupMinLoop_eq, hl]
  · intro hw
    simp [ScoreGroup, hw]

/-- C6 witness: a Min-mode group of weight 5 over test scores 1/2 and 3/2
contributes 5 × max(1, 1/2, 3/2); a weight −1 group yields (0, false). -/
theorem scoreGroup_min_spec_witness :
    ScoreGroup ⟨5, .min, [⟨1⟩, ⟨2⟩]⟩ [⟨1, 1/2⟩, ⟨2, 3/2⟩] =
      some (5 * ([(1 : ℚ)/2, 3/2].foldl max 1), true) ∧
    ScoreGroup ⟨-1, .min, [⟨1⟩, ⟨2⟩]⟩ [⟨1, 1/2⟩, ⟨2, 3/2⟩] = some (0, false) := by
  constructor
  · exact (scoreGroup_min_spec ⟨5, .min, [⟨1⟩, ⟨2⟩]⟩ [⟨1, 1/2⟩, ⟨2, 3/2⟩] [1/2, 3/2] rfl).1
      (by norm_num) rfl
  · exact (scoreGroup_min_spec ⟨-1, .min, [⟨1⟩, ⟨2⟩]⟩ [⟨1, 1/2⟩, ⟨2, 3/2⟩] [] rfl).2
      (by norm_num)

/-- C8: For every test group with non-negative weight in Sum scoring mode
(with a result present for every test), `ScoreGroup` returns
contribution = weight × (sum of per-test scores) / testCount and
counts = true. -/
theorem scoreGroup_sum_spec (tg : TestGroupWithTests) (results : List TestResult) (l : List ℚ)
    (hmode : tg.scoringMode = .sum) (hw : 0 ≤ tg.score)
    (hl : lookupScores results tg.tests = some l) :
    ScoreGroup tg results = some (tg.score * (l.sum / (tg.tests.length : ℚ)), true) := by
  simp [ScoreGroup, hmode, not_lt_of_ge hw, groupSumLoop_eq, hl]

/-- C8 witness: a Sum-mode group with weight 10 and two tests with results
1 and 1/2 contributes exactly 10 × (3/2)/2 = 15/2 = 7.5. -/
theorem scoreGroup_sum_spec_witness :
    ScoreGroup ⟨10, .sum, [⟨1⟩, ⟨2⟩]⟩ [⟨1, 1⟩, ⟨2, 1/2⟩] = some (15/2, true) := by
  have h := scoreGroup_sum_spec ⟨10, .sum, [⟨1⟩, ⟨2⟩]⟩ [⟨1, 1⟩, ⟨2, 1/2⟩] [1, 1/2] rfl
    (by norm_num) rfl
  rw [h]
  norm_num

/-- C10: For every test group in Min scoring mode with weight ≥ 0 whose
test results all have score ≤ 1, `ScoreGroup` returns exactly
(weight, true): the ratio initialized to 1 is only raised by a strictly
greater score, so the group contributes its full weight. -/
theorem scoreGroup_min_full_weight (tg : TestGroupWithTests) (results : List TestResult)
    (l : List ℚ) (hmode : tg.scoringMode = .min) (hw : 0 ≤ tg.score)
    (hl : lookupScores results tg.tests = some l) (hle : ∀ s ∈ l, s ≤ 1) :
    ScoreGroup tg results = some (tg.score, true) := by
  have hfold : ∀ (m : List ℚ), (∀ s ∈ m, s ≤ 1) → m.foldl max 1 = 1 := by
    intro m
    induction m with
    | nil => intro _; simp
    | cons a m ih =>
      intro hm
      have ha : a ≤ 1 := hm a (by simp)
      have : max 1 a = 1 := max_eq_left ha
      simp [List.foldl_cons, this, ih (fun s hs => hm s (by simp [hs]))]
  simp [ScoreGroup, hmode, not_lt_of_ge hw, groupMinLoop_eq, hl, hfold l hle]

/-- C10 witness: a Min-mode group of weight 5 over test scores 1/2 and 1/4
(both ≤ 1) contributes its full weight 5. -/
theorem scoreGroup_min_full_weight_witness :
    ScoreGroup ⟨5, .min, [⟨1⟩, ⟨2⟩]⟩ [⟨1, 1/2⟩, ⟨2, 1/4⟩] = some (5, true) :=
  scoreGroup_min_full_weight ⟨5, .min, [⟨1⟩, ⟨2⟩]⟩ [⟨1, 1/2⟩, ⟨2, 1/4⟩] [1/2, 1/4] rfl
    (by norm_num) rfl (by norm_num)

/-- C5: `UpdateVerdict` is a function of score completeness and totals
only: a non-counting submission (no compiled source, or score/penalty not
set) gets "Compile Error"; a counting submission whose score is exactly
(exact equality, no epsilon) the sum of weights over groups with weight >
0 gets "Accepted"; otherwise "Scored". -/
theorem updateVerdict_cases (tests : List TestGroupWithTests) (sub : Submission) :
    (counting sub = false → UpdateVerdict tests sub = "Compile Error") ∧
    (∀ q, counting sub = true → sub.score = some q →
      ((q = ((tests.filter (fun tg => decide (0 < tg.score))).map (fun tg => tg.score)).sum →
          UpdateVerdict tests sub = "Accepted") ∧
        (q ≠ ((tests.filter (fun tg => decide (0 < tg.score))).map (fun tg => tg.score)).sum →
          UpdateVerdict tests sub = "Scored"))) := by
  constructor
  · intro h
    unfold counting at h
    simp [UpdateVerdict, h, VerdictCompileError]
  · intro q hc hq
    have hs := scoreOf_counting sub hc
    have hst : storedScore sub = q := by simp [storedScore, hq]
    have hmax := maxPossibleScoreLoop_eq tests 0
    unfold counting at hc
    constructor
    · intro he
      simp [UpdateVerdict, hc, hs, hst, hmax, he, VerdictAccepted]
    · intro hne
      simp [UpdateVerdict, hc, hs, hst, hmax, hne, VerdictScored]

/-- C5 witness: for one test-group list with weights 40 and −5, a counting
submission scoring 40 is "Accepted", one scoring 39 is "Scored", and a
submission with no compiled source is "Compile Error". -/
theorem updateVerdict_cases_witness :
    UpdateVerdict [⟨40, .sum, []⟩, ⟨-5, .min, []⟩]
      ⟨1, 7, "alice", some 40, some 5, "", 100, some []⟩ = "Accepted" ∧
    UpdateVerdict [⟨40, .sum, []⟩, ⟨-5, .min, []⟩]
      ⟨1, 7, "alice", some 39, some 5, "", 100, some []⟩ = "Scored" ∧
    UpdateVerdict [⟨40, .sum, []⟩, ⟨-5, .min, []⟩]
      ⟨1, 7, "alice", some 40, some 5, "", 100, Option.none⟩ = "Compile Error" := by
  refine ⟨?_, ?_, ?_⟩
  · exact ((updateVerdict_cases [⟨40, .sum, []⟩, ⟨-5, .min, []⟩]
      ⟨1, 7, "alice", some 40, some 5, "", 100, some []⟩).2 40 (by decide) rfl).1 (by norm_num)
  · exact ((updateVerdict_cases [⟨40, .sum, []⟩, ⟨-5, .min, []⟩]
      ⟨1, 7, "alice", some 39, some 5, "", 100, some []⟩).2 39 (by decide) rfl).2 (by norm_num)
  · exact (updateVerdict_cases [⟨40, .sum, []⟩, ⟨-5, .min, []⟩]
      ⟨1, 7, "alice", some 40, some 5, "", 100, Option.none⟩).1 (by decide)

/-- C3: For every submission with at least one configured test lacking a
`TestResult`, `Score` leaves the submission's score, penalty and verdict
untouched and enqueues, as one batch, exactly one run-test job per missing
test plus one score-submission job — missingCount + 1 jobs in all — then
stops. -/
theorem score_missing_enqueues (policy : PenaltyPolicy) (mode : ScoringMode)
    (startTime endTime pid : Int) (tests : List TestGroupWithTests)
    (results : List TestResult) (sub : Submission) (userSubs userSubsAfter : List Submission)
    (hmiss : MissingTests tests results ≠ []) :
    Score policy mode startTime endTime pid tests results sub userSubs userSubsAfter =
      some (.enqueued sub
        ((MissingTests tests results).map (fun m => Job.runTest sub.id m.id) ++
          [Job.scoreSub sub.id])) ∧
    ((MissingTests tests results).map (fun m => Job.runTest sub.id m.id) ++
        [Job.scoreSub sub.id]).length = (MissingTests tests results).length + 1 := by
  have hlen : (MissingTests tests results).length > 0 := List.length_pos.mpr hmiss
  constructor
  · simp [Score, hlen]
  · simp

/-- C3 witness: with one configured group of two tests and a result for
only one of them, `Score` enqueues the run-test job for the missing test
and one score job — 2 = 1 + 1 jobs — and returns the submission as given. -/
theorem score_missing_enqueues_witness :
    Score .none .best 0 1000 7 [⟨10, .sum, [⟨1⟩, ⟨2⟩]⟩] [⟨1, 1⟩]
      ⟨1, 7, "alice", Option.none, Option.none, "", 100, some []⟩ [] [] =
      some (.enqueued ⟨1, 7, "alice", Option.none, Option.none, "", 100, some []⟩
        [Job.runTest 1 2, Job.scoreSub 1]) ∧
    ([Job.runTest 1 2, Job.scoreSub 1] : List Job).length = 1 + 1 := by
  have h := score_missing_enqueues .none .best 0 1000 7 [⟨10, .sum, [⟨1⟩, ⟨2⟩]⟩] [⟨1, 1⟩]
    ⟨1, 7, "alice", Option.none, Option.none, "", 100, some []⟩ [] [] (by decide)
  exact ⟨h.1, rfl⟩

theorem selStep_skip (mode : ScoringMode) (startTime endTime : Int) (st : SelState)
    (sub : Submission) (h : counting sub = false) :
    selStep mode startTime endTime st sub = some st := by
  unfold counting at h
  simp [selStep, h]

theorem foldlM_selStep_skip (mode : ScoringMode) (startTime endTime : Int) :
    ∀ (subs : List Submission) (st : SelState), (∀ s ∈ subs, counting s = false) →
      List.foldlM (selStep mode startTime endTime) st subs = some st := by
  intro subs
  induction subs with
  | nil => intro st _; simp
  | cons s rest ih =>
    intro st h
    have hs : counting s = false := h s (by simp)
    have hrest : ∀ x ∈ rest, counting x = false := fun x hx => h x (by simp [hx])
    simp [List.foldlM_cons, selStep_skip mode startTime endTime st s hs, ih st hrest]

/-- C2: For every (user, problem) pair in which no submission counts (each
is pending, lacks compiled source, or has an invalid score or penalty),
`CompareScores` returns the explicit empty standing (score 0, penalty 0,
unsolved, no best-submission reference), and persisting it clears any
existing standing row for that pair instead of keeping a zero-score row
(`models.ProblemResult.Write` modelled from the spec). -/
theorem compareScores_no_counting_clears (mode : ScoringMode) (startTime endTime pid : Int)
    (uid : String) (subs : List Submission) (standings : List ProblemResult)
    (h : ∀ s ∈ subs, counting s = false) :
    CompareScores mode startTime endTime pid uid subs = some (emptyProblemResult pid uid) ∧
    emptyProblemResult pid uid =
      { bestSubmissionID := Option.none, penalty := 0, score := 0, solved := false,
        problemID := pid, userID := uid } ∧
    ∀ r ∈ writeProblemResult standings (emptyProblemResult pid uid),
      ¬(r.userID = uid ∧ r.problemID = pid) := by
  refine ⟨?_, rfl, ?_⟩
  · simp [CompareScores, foldlM_selStep_skip mode startTime endTime subs _ h, emptyProblemResult]
  · intro r hr
    simp [writeProblemResult, emptyProblemResult] at hr
    intro hcontra
    rcases hr.2 with hu | hp
    · exact hu hcontra.1
    · exact hp hcontra.2

/-- C2 witness: with one pending and one compile-error submission and an
existing standing row, the selector returns the empty standing and the row
for (alice, 7) is cleared. -/
theorem compareScores_no_counting_clears_witness :
    CompareScores .best 0 1000 7 "alice"
      [⟨1, 7, "alice", Option.none, Option.none, "", 100, some []⟩,
       ⟨2, 7, "alice", some 40, some 5, "Scored", 200, Option.none⟩] =
      some (emptyProblemResult 7 "alice") ∧
    emptyProblemResult 7 "alice" =
      { bestSubmissionID := Option.none, penalty := 0, score := 0, solved := false,
        problemID := 7, userID := "alice" } ∧
    ∀ r ∈ writeProblemResult [⟨some 1, 3, 40, false, 7, "alice"⟩]
        (emptyProblemResult 7 "alice"),
      ¬(r.userID = "alice" ∧ r.problemID = 7) :=
  compareScores_no_counting_clears .best 0 1000 7 "alice" _ _ (by decide)

theorem icpcLoop_eq (subID : Int) (s₀ : Submission) (l₂ : List Submission) (hid : s₀.id = subID) :
    ∀ (l₁ : List Submission) (idx : Nat), (∀ x ∈ l₁, subID ≠ x.id) →
      icpcLoop subID (l₁ ++ s₀ :: l₂) idx = 20 * ((idx : Int) + l₁.length) := by
  intro l₁
  induction l₁ with
  | nil =>
    intro idx _
    simp [icpcLoop, hid]
  | cons x l₁ ih =>
    intro idx h
    have hx : subID ≠ x.id := h x (by simp)
    have hrest : ∀ y ∈ l₁, subID ≠ y.id := fun y hy => h y (by simp [hy])
    have hstep : icpcLoop subID ((x :: l₁) ++ s₀ :: l₂) idx =
        icpcLoop subID (l₁ ++ s₀ :: l₂) (idx + 1) := by
      simp [icpcLoop, hx]
    rw [hstep, ih (idx + 1) hrest]
    simp only [List.length_cons]
    push_cast
    ring

theorem submitTimeValue_ceil (startTime submittedAt : Int)
    (h : 0 ≤ submittedAt - startTime) :
    (submitTimeValue startTime submittedAt - 1) * minuteNs < submittedAt - startTime ∧
    submittedAt - startTime ≤ submitTimeValue startTime submittedAt * minuteNs := by
  have hm : (0 : Int) < minuteNs := by decide
  have hnum : 0 ≤ submittedAt - startTime + minuteNs - 1 := by
    simp only [minuteNs] at *; omega
  have htdiv : Int.tdiv (submittedAt - startTime + minuteNs - 1) minuteNs =
      (submittedAt - startTime + minuteNs - 1) / minuteNs :=
    Int.tdiv_eq_ediv hnum (le_of_lt hm)
  have hdm := Int.ediv_add_emod (submittedAt - startTime + minuteNs - 1) minuteNs
  have hr0 : 0 ≤ (submittedAt - startTime + minuteNs - 1) % minuteNs :=
    Int.emod_nonneg _ (by decide)
  have hrlt : (submittedAt - startTime + minuteNs - 1) % minuteNs < minuteNs :=
    Int.emod_lt_of_pos _ hm
  simp only [submitTimeValue, htdiv, minuteNs] at *
  omega

/-- C1 counterexample: contest starts at 0; the user's 3rd stored
submission, submitted exactly 125 minutes after the start, gets ICPC
penalty 20×2 + 125 = 165 (Go's range index is 0-based), not 20×3 + 125 =
185 as the claim states. -/
theorem icpc_third_submission_penalty_not_185 :
    ComputePenalties .icpc 0 ⟨3, 7, "alice", some 55, Option.none, "", 7500000000000, some []⟩
      [⟨1, 7, "alice", some 0, some 0, "", 0, some []⟩,
       ⟨2, 7, "alice", some 0, some 0, "", 0, some []⟩,
       ⟨3, 7, "alice", some 55, Option.none, "", 7500000000000, some []⟩] ≠ some 185 ∧
    ComputePenalties .icpc 0 ⟨3, 7, "alice", some 55, Option.none, "", 7500000000000, some []⟩
      [⟨1, 7, "alice", some 0, some 0, "", 0, some []⟩,
       ⟨2, 7, "alice", some 0, some 0, "", 0, some []⟩,
       ⟨3, 7, "alice", some 55, Option.none, "", 7500000000000, some []⟩] = some 165 := by
  constructor <;> decide

/-- C1 (amended): Under the ICPC penalty policy, `ComputePenalties` sets
the penalty to 20 times the 0-based index of the first entry of the user's
stored submission list whose id equals the current submission's id, plus
the ceiling in whole minutes (any partial minute rounded up) of
submittedAt minus the contest start; for a user's 3rd submission submitted
125 minutes after the start this is 20×2 + 125 = 165. -/
theorem computePenalties_icpc_correct (startTime : Int) (sub s₀ : Submission)
    (l₁ l₂ : List Submission) (hid : s₀.id = sub.id) (hl₁ : ∀ x ∈ l₁, sub.id ≠ x.id)
    (ht : 0 ≤ sub.submittedAt - startTime) :
    ComputePenalties .icpc startTime sub (l₁ ++ s₀ :: l₂) =
      some (20 * (l₁.length : Int) + submitTimeValue startTime sub.submittedAt) ∧
    (submitTimeValue startTime sub.submittedAt - 1) * minuteNs <
      sub.submittedAt - startTime ∧
    sub.submittedAt - startTime ≤ submitTimeValue startTime sub.submittedAt * minuteNs := by
  have hceil := submitTimeValue_ceil startTime sub.submittedAt ht
  refine ⟨?_, hceil.1, hceil.2⟩
  have hloop := icpcLoop_eq sub.id s₀ l₂ hid l₁ 0 hl₁
  simp only [ComputePenalties, hloop]
  norm_num

/-- C1 witness: the counterexample's input satisfies the amended claim:
index 2 in the stored list and 125 whole minutes give penalty 165, and 125
minutes is indeed the exact ceiling of the elapsed time. -/
theorem computePenalties_icpc_correct_witness :
    ComputePenalties .icpc 0 ⟨3, 7, "alice", some 55, Option.none, "", 7500000000000, some []⟩
      ([⟨1, 7, "alice", some 0, some 0, "", 0, some []⟩,
        ⟨2, 7, "alice", some 0, some 0, "", 0, some []⟩] ++
       ⟨3, 7, "alice", some 55, Option.none, "", 7500000000000, some []⟩ :: []) =
      some (20 * 2 + submitTimeValue 0 7500000000000) ∧
    (submitTimeValue 0 7500000000000 - 1) * minuteNs < 7500000000000 - 0 ∧
    (7500000000000 - 0 : Int) ≤ submitTimeValue 0 7500000000000 * minuteNs :=
  computePenalties_icpc_correct 0
    ⟨3, 7, "alice", some 55, Option.none, "", 7500000000000, some []⟩
    ⟨3, 7, "alice", some 55, Option.none, "", 7500000000000, some []⟩
    [⟨1, 7, "alice", some 0, some 0, "", 0, some []⟩,
     ⟨2, 7, "alice", some 0, some 0, "", 0, some []⟩] [] rfl (by decide) (by decide)

theorem selStep_counted (mode : ScoringMode) (a b : Int) (st : SelState) (sub : Submission)
    (st₁ : SelState) (h : selStep mode a b st sub = some st₁) :
    st₁.counted = st.counted + (if counting sub = true then 1 else 0) := by
  rcases hc : counting sub
  · unfold counting at hc
    simp [selStep, hc] at h
    simp [← h, hc]
  · unfold counting at hc
    cases mode <;> simp [selStep, hc] at h
    case once => split at h <;> simp [← h, hc]
    case last => simp [← h, hc]
    case best => split at h <;> simp [← h, hc]
    case decay => split at h <;> simp [← h, hc]

theorem foldlM_selStep_counted (mode : ScoringMode) (a b : Int) :
    ∀ (subs : List Submission) (st st' : SelState),
      List.foldlM (selStep mode a b) st subs = some st' →
      st'.counted = st.counted + (subs.filter counting).length := by
  intro subs
  induction subs with
  | nil => intro st st' h; simp at h; simp [← h]
  | cons s rest ih =>
    intro st st' h
    rcases h1 : selStep mode a b st s with _ | st₁
    · rw [List.foldlM_cons, h1] at h
      simp at h
    · rw [List.foldlM_cons, h1] at h
      simp at h
      have h2 := ih st₁ st' h
      have h3 := selStep_counted mode a b st s st₁ h1
      rcases hc : counting s
      · simp [List.filter_cons, hc] at h2 h3 ⊢
        omega
      · simp [List.filter_cons, hc] at h2 h3 ⊢
        omega

/-- C4: Under the Decay policy, for each counting submission the selector
recomputes an effective score min(3/10, (1 − (7/10)·(submissionTime −
contestStart)/contestDuration)·(1 − (1/10)·counted)) — `counted` being the
number of counting submissions seen before the current one — and applies
Best-style replacement (replace when the recomputed score is ≥ the
current best's stored score) using the recomputed score. -/
theorem compareScores_decay_step (startTime endTime : Int) (st : SelState) (sub : Submission)
    (hc : counting sub = true) :
    selStep .decay startTime endTime st sub =
      some (if st.which.isNone = true ∨ whichScore st.which ≤
              min (3/10) ((1 - (7/10) * (((sub.submittedAt - startTime : Int) : ℚ) /
                ((endTime - startTime : Int) : ℚ))) * (1 - (1/10) * (st.counted : ℚ)))
            then { maxScore := min (3/10) ((1 - (7/10) * (((sub.submittedAt - startTime : Int) : ℚ) /
                    ((endTime - startTime : Int) : ℚ))) * (1 - (1/10) * (st.counted : ℚ))),
                   which := some sub, counted := st.counted + 1 }
            else { st with counted := st.counted + 1 }) ∧
    (∀ (subs : List Submission) (st' : SelState),
        List.foldlM (selStep .decay startTime endTime) ⟨0, Option.none, 0⟩ subs = some st' →
        st'.counted = (subs.filter counting).length) := by
  constructor
  · have hc2 : (scoreOf (some sub)).2.2 = true := hc
    simp [selStep, hc2, decayScore]
  · intro subs st' h
    simpa using foldlM_selStep_counted .decay startTime endTime subs ⟨0, Option.none, 0⟩ st' h

/-- C4 witness: at the start state (no best yet, counted = 0), a counting
submission halfway through a 100-minute contest is selected with the
recomputed Decay score. -/
theorem compareScores_decay_step_witness :
    selStep .decay 0 6000000000000 ⟨0, Option.none, 0⟩
      ⟨1, 7, "alice", some 40, some 5, "Scored", 3000000000000, some []⟩ =
      some (if (Option.none : Option Submission).isNone = true ∨
              whichScore Option.none ≤
              min (3/10) ((1 - (7/10) * (((3000000000000 - 0 : Int) : ℚ) /
                ((6000000000000 - 0 : Int) : ℚ))) * (1 - (1/10) * ((0 : Nat) : ℚ)))
            then { maxScore := min (3/10) ((1 - (7/10) * (((3000000000000 - 0 : Int) : ℚ) /
                    ((6000000000000 - 0 : Int) : ℚ))) * (1 - (1/10) * ((0 : Nat) : ℚ))),
                   which := some ⟨1, 7, "alice", some 40, some 5, "Scored", 3000000000000, some []⟩,
                   counted := 0 + 1 }
            else { maxScore := 0, which := Option.none, counted := 0 + 1 }) ∧
    (∀ (subs : List Submission) (st' : SelState),
        List.foldlM (selStep .decay 0 6000000000000) ⟨0, Option.none, 0⟩ subs = some st' →
        st'.counted = (subs.filter counting).length) :=
  compareScores_decay_step 0 6000000000000 ⟨0, Option.none, 0⟩
    ⟨1, 7, "alice", some 40, some 5, "Scored", 3000000000000, some []⟩ (by decide)

theorem selStep_valid_isSome (mode : ScoringMode) (a b : Int) (st : SelState) (sub : Submission)
    (h : mode = .once ∨ mode = .last ∨ mode = .best ∨ mode = .decay) :
    (selStep mode a b st sub).isSome = true := by
  rcases hc : counting sub
  · unfold counting at hc
    simp [selStep, hc]
  · unfold counting at hc
    rcases h with h | h | h | h <;> subst h <;> simp [selStep, hc]

theorem foldlM_selStep_valid_some (mode : ScoringMode) (a b : Int)
    (h : mode = .once ∨ mode = .last ∨ mode = .best ∨ mode = .decay) :
    ∀ (subs : List Submission) (st : SelState),
      ∃ st', List.foldlM (selStep mode a b) st subs = some st' := by
  intro subs
  induction subs with
  | nil => intro st; exact ⟨st, by simp⟩
  | cons s rest ih =>
    intro st
    obtain ⟨st₁, h1⟩ := Option.isSome_iff_exists.mp (selStep_valid_isSome mode a b st s h)
    obtain ⟨st', h2⟩ := ih st₁
    exact ⟨st', by rw [List.foldlM_cons, h1]; simpa using h2⟩

theorem foldlM_selStep_unknown_none (v : String) (a b : Int) :
    ∀ (subs : List Submission) (st : SelState), (∃ s ∈ subs, counting s = true) →
      List.foldlM (selStep (.unknown v) a b) st subs = Option.none := by
  intro subs
  induction subs with
  | nil => intro st h; simp at h
  | cons s rest ih =>
    intro st h
    rcases hc : counting s
    · have hrest : ∃ x ∈ rest, counting x = true := by
        rcases h with ⟨x, hx, hcx⟩
        rcases List.mem_cons.mp hx with rfl | hx2
        · rw [hc] at hcx; cases hcx
        · exact ⟨x, hx2, hcx⟩
      unfold counting at hc
      rw [List.foldlM_cons]
      simp [selStep, hc, ih st hrest]
    · unfold counting at hc
      rw [List.foldlM_cons]
      simp [selStep, hc]

/-- C9 counterexample: a group with an unknown scoring mode but negative
weight does NOT abort: `ScoreGroup` silently returns the default hidden
result (0, false), because the weight check precedes the mode dispatch. -/
theorem scoreGroup_unknown_negative_silent :
    ScoreGroup ⟨-1, .unknown "bogus", []⟩ [] = some (0, false) ∧
    ScoreGroup ⟨-1, .unknown "bogus", []⟩ [] ≠ Option.none := by
  constructor <;> decide

/-- C9 (amended): the fatal-abort branches are unreachable for the valid
mode/policy sets (for `ScoreGroup`, when every test of the group has a
result). An unknown penalty policy always aborts; an unknown test-group
scoring mode aborts whenever the group's weight is ≥ 0 (a negative-weight
group silently returns (0, false) first); an unknown selection policy
aborts as soon as one counting submission is processed (with none,
`CompareScores` returns the empty standing without aborting). -/
theorem panic_branches_spec :
    (∀ (tg : TestGroupWithTests) (results : List TestResult) (l : List ℚ),
        (tg.scoringMode = .sum ∨ tg.scoringMode = .min ∨ tg.scoringMode = .product) →
        lookupScores results tg.tests = some l →
        (ScoreGroup tg results).isSome = true) ∧
    (∀ (policy : PenaltyPolicy) (startTime : Int) (sub : Submission) (subs : List Submission),
        (policy = .none ∨ policy = .icpc ∨ policy = .submitTime) →
        (ComputePenalties policy startTime sub subs).isSome = true) ∧
    (∀ (v : String) (startTime : Int) (sub : Submission) (subs : List Submission),
        ComputePenalties (.unknown v) startTime sub subs = Option.none) ∧
    (∀ (mode : ScoringMode) (a b pid : Int) (uid : String) (subs : List Submission),
        (mode = .once ∨ mode = .last ∨ mode = .best ∨ mode = .decay) →
        (CompareScores mode a b pid uid subs).isSome = true) ∧
    (∀ (v : String) (a b pid : Int) (uid : String) (subs : List Submission),
        (∃ s ∈ subs, counting s = true) →
        CompareScores (.unknown v) a b pid uid subs = Option.none) ∧
    (∀ (v : String) (tg : TestGroupWithTests) (results : List TestResult),
        tg.scoringMode = .unknown v → 0 ≤ tg.score →
        ScoreGroup tg results = Option.none) := by
  refine ⟨?_, ?_, ?_, ?_, ?_, ?_⟩
  · intro tg results l hmode hl
    by_cases hw : tg.score < 0
    · simp [ScoreGroup, hw]
    · rcases hmode with h | h | h <;>
        simp [ScoreGroup, hw, h, groupSumLoop_eq, groupMinLoop_eq, groupProductLoop_eq, hl]
  · intro policy startTime sub subs h
    rcases h with h | h | h <;> subst h <;> simp [ComputePenalties]
  · intro v startTime sub subs
    simp [ComputePenalties]
  · intro mode a b pid uid subs h
    obtain ⟨st', hf⟩ := foldlM_selStep_valid_some mode a b h subs ⟨0, Option.none, 0⟩
    rcases hw : st'.which with _ | w
    · simp [CompareScores, hf, hw]
    · rcases hcw : (scoreOf (some w)).2.2 <;> simp [CompareScores, hf, hw, hcw]
  · intro v a b pid uid subs h
    simp [CompareScores, foldlM_selStep_unknown_none v a b subs ⟨0, Option.none, 0⟩ h]
  · intro v tg results hmode hw
    simp [ScoreGroup, hmode, not_lt_of_ge hw]

/-- C9 witness: instances of each amended conjunct at concrete inputs. -/
theorem panic_branches_spec_witness :
    (ScoreGroup ⟨10, .sum, []⟩ []).isSome = true ∧
    (ComputePenalties .none 0 ⟨1, 7, "alice", some 0, some 0, "", 0, some []⟩ []).isSome = true ∧
    ComputePenalties (.unknown "broken") 0
      ⟨1, 7, "alice", some 0, some 0, "", 0, some []⟩ [] = Option.none ∧
    (CompareScores .best 0 1000 7 "alice" []).isSome = true ∧
    CompareScores (.unknown "broken") 0 1000 7 "alice"
      [⟨1, 7, "alice", some 40, some 5, "Scored", 100, some []⟩] = Option.none ∧
    ScoreGroup ⟨10, .unknown "broken", []⟩ [] = Option.none := by
  obtain ⟨h1, h2, h3, h4, h5, h6⟩ := panic_branches_spec
  refine ⟨h1 ⟨10, .sum, []⟩ [] [] (Or.inl rfl) rfl,
    h2 .none 0 ⟨1, 7, "alice", some 0, some 0, "", 0, some []⟩ [] (Or.inl rfl),
    h3 "broken" 0 ⟨1, 7, "alice", some 0, some 0, "", 0, some []⟩ [],
    h4 .best 0 1000 7 "alice" [] (Or.inr (Or.inr (Or.inl rfl))),
    h5 "broken" 0 1000 7 "alice" [⟨1, 7, "alice", some 40, some 5, "Scored", 100, some []⟩]
      ⟨⟨1, 7, "alice", some 40, some 5, "Scored", 100, some []⟩, by simp, by decide⟩,
    h6 "broken" ⟨10, .unknown "broken", []⟩ [] rfl (by norm_num)⟩

theorem selStep_best_eq (a b : Int) (st : SelState) (sub : Submission)
    (h : counting sub = true) :
    selStep .best a b st sub =
      some (if st.which.isNone = true ∨ whichScore st.which ≤ (scoreOf (some sub)).1 then
              { maxScore := (scoreOf (some sub)).1, which := some sub, counted := st.counted + 1 }
            else { st with counted := st.counted + 1 }) := by
  have hc2 : (scoreOf (some sub)).2.2 = true := h
  simp [selStep, hc2]

theorem best_fold_inv (a b : Int) :
    ∀ (subs : List Submission) (st : SelState) (q : List Submission), BestInv st q →
      ∃ st', List.foldlM (selStep .best a b) st subs = some st' ∧
        BestInv st' (q ++ subs.filter counting) := by
  intro subs
  induction subs with
  | nil => intro st q hinv; exact ⟨st, by simp, by simpa using hinv⟩
  | cons s rest ih =>
    intro st q hinv
    rcases hc : counting s
    · have hstep : selStep .best a b st s = some st := selStep_skip .best a b st s hc
      obtain ⟨st', hf, hinv2⟩ := ih st q hinv
      refine ⟨st', ?_, ?_⟩
      · rw [List.foldlM_cons, hstep]; simpa using hf
      · simpa [List.filter_cons, hc] using hinv2
    · have hsc : (scoreOf (some s)).1 = storedScore s := by rw [scoreOf_counting s hc]
      have hred := selStep_best_eq a b st s hc
      by_cases hcond : st.which.isNone = true ∨ whichScore st.which ≤ (scoreOf (some s)).1
      · rw [if_pos hcond] at hred
        have hinv₁ : BestInv
            { maxScore := (scoreOf (some s)).1, which := some s, counted := st.counted + 1 }
            (q ++ [s]) := by
          constructor
          · intro h0; cases h0
          · intro w hw0
            have hws : w = s := by injection hw0 with h0; rw [← h0]
            subst hws
            refine ⟨hc, hsc, q, [], by simp, ?_, by simp⟩
            intro x hx
            rcases hwch : st.which with _ | w0
            · rw [(hinv.1 hwch).1] at hx; cases hx
            · obtain ⟨_, _, l₁, l₂, hdec, hle, hlt⟩ := hinv.2 w0 hwch
              have hw0s : storedScore w0 ≤ storedScore w := by
                rcases hcond with hn | hcmp
                · rw [hwch] at hn; simp at hn
                · rw [hwch] at hcmp
                  simpa [whichScore, storedScore, hsc] using hcmp
              rw [hdec] at hx
              rcases List.mem_append.mp hx with hx1 | hx2
              · exact le_trans (hle x hx1) hw0s
              · rcases List.mem_cons.mp hx2 with rfl | hx3
                · exact hw0s
                · exact le_trans (le_of_lt (hlt x hx3)) hw0s
        obtain ⟨st', hf, hinv2⟩ := ih _ (q ++ [s]) hinv₁
        refine ⟨st', ?_, ?_⟩
        · rw [List.foldlM_cons, hred]; simpa using hf
        · have hq : (q ++ [s]) ++ rest.filter counting = q ++ (s :: rest.filter counting) := by
            simp
          rw [hq] at hinv2
          simpa [List.filter_cons, hc] using hinv2
      · rw [if_neg hcond] at hred
        push_neg at hcond
        obtain ⟨hn, hlt0⟩ := hcond
        rcases hwch : st.which with _ | w0
        · rw [hwch] at hn; simp at hn
        · have hslt : storedScore s < storedScore w0 := by
            have hx := hlt0
            rw [hwch] at hx
            simpa [whichScore, storedScore, hsc] using hx
          have hinv₁ : BestInv { st with counted := st.counted + 1 } (q ++ [s]) := by
            constructor
            · intro h0
              simp only [SelState.mk.injEq] at h0 ⊢
              rw [hwch] at h0; cases h0
            · intro w hw0
              have hw0x : st.which = some w := hw0
              rw [hwch] at hw0x
              have hws : w0 = w := by injection hw0x
              subst hws
              obtain ⟨hcw0, hmax0, l₁, l₂, hdec, hle, hlt⟩ := hinv.2 w0 hwch
              refine ⟨hcw0, hmax0, l₁, l₂ ++ [s], by simp [hdec], hle, ?_⟩
              intro x hx
              rcases List.mem_append.mp hx with hx1 | hx2
              · exact hlt x hx1
              · rcases List.mem_cons.mp hx2 with rfl | hx3
                · exact hslt
                · cases hx3
          obtain ⟨st', hf, hinv2⟩ := ih _ (q ++ [s]) hinv₁
          refine ⟨st', ?_, ?_⟩
          · rw [List.foldlM_cons, hred]; simpa using hf
          · have hq : (q ++ [s]) ++ rest.filter counting = q ++ (s :: rest.filter counting) := by
              simp
            rw [hq] at hinv2
            simpa [List.filter_cons, hc] using hinv2

/-- C7: Under the Best selection policy, `CompareScores` keeps, among the
counting submissions in their stored order, the one with the highest
stored score, and on ties the later one (the comparison is score ≥ current
best's score): the selected submission closes a decomposition of the
counting submissions in which everything before it scores ≤ it and
everything after it scores strictly less. -/
theorem compareScores_best_keeps_last_max (a b pid : Int) (uid : String)
    (subs : List Submission) (h : ∃ s ∈ subs, counting s = true) :
    ∃ w l₁ l₂, subs.filter counting = l₁ ++ w :: l₂ ∧
      counting w = true ∧
      (∀ s ∈ l₁, storedScore s ≤ storedScore w) ∧
      (∀ s ∈ l₂, storedScore s < storedScore w) ∧
      CompareScores .best a b pid uid subs =
        some { bestSubmissionID := some w.id, penalty := w.penalty.getD 0,
               score := storedScore w, solved := w.verdict == VerdictAccepted,
               problemID := pid, userID := uid } := by
  have hinv0 : BestInv ⟨0, Option.none, 0⟩ [] :=
    ⟨fun _ => ⟨rfl, rfl⟩, fun w hw => by cases hw⟩
  obtain ⟨st', hf, hinv⟩ := best_fold_inv a b subs ⟨0, Option.none, 0⟩ [] hinv0
  rw [List.nil_append] at hinv
  rcases hw : st'.which with _ | w
  · obtain ⟨s, hs, hcs⟩ := h
    have hmem : s ∈ subs.filter counting := List.mem_filter.mpr ⟨hs, hcs⟩
    rw [(hinv.1 hw).1] at hmem
    cases hmem
  · obtain ⟨hcw, hmax, l₁, l₂, hdec, hle, hlt⟩ := hinv.2 w hw
    refine ⟨w, l₁, l₂, hdec, hcw, hle, hlt, ?_⟩
    have hsw := scoreOf_counting w hcw
    simp [CompareScores, hf, hw, hsw, hmax]

/-- C7 witness: counting submissions with stored scores 40, 70, 55 under
the Best policy: the submission scoring 70 (id 2) is selected. -/
theorem compareScores_best_keeps_last_max_witness :
    ∃ w l₁ l₂,
      ([⟨1, 7, "alice", some 40, some 5, "Scored", 100, some []⟩,
        ⟨2, 7, "alice", some 70, some 9, "Accepted", 200, some []⟩,
        ⟨3, 7, "alice", some 55, some 11, "Scored", 300, some []⟩] :
          List Submission).filter counting = l₁ ++ w :: l₂ ∧
      counting w = true ∧
      (∀ s ∈ l₁, storedScore s ≤ storedScore w) ∧
      (∀ s ∈ l₂, storedScore s < storedScore w) ∧
      CompareScores .best 0 1000 7 "alice"
        [⟨1, 7, "alice", some 40, some 5, "Scored", 100, some []⟩,
         ⟨2, 7, "alice", some 70, some 9, "Accepted", 200, some []⟩,
         ⟨3, 7, "alice", some 55, some 11, "Scored", 300, some []⟩] =
        some { bestSubmissionID := some w.id, penalty := w.penalty.getD 0,
               score := storedScore w, solved := w.verdict == VerdictAccepted,
               problemID := 7, userID := "alice" } :=
  compareScores_best_keeps_last_max 0 1000 7 "alice" _
    ⟨⟨1, 7, "alice", some 40, some 5, "Scored", 100, some []⟩, by simp, by decide⟩
